import Mathlib

/-!
Verification of the SBI Debug Console Extension shim (`src/debug_console.rs`).

The shim marshals arguments into a fixed calling convention, issues a single
firmware call (`ecall`), and decodes the returned (status, value) pair into a
result or a typed error. The `ecall1`/`ecall3` wrappers and the `SbiError`
status decoding live in the crate root, which is not part of the sources here;
they are modelled from the specification. The functions of
`debug_console.rs` are translated directly.

Modelling conventions:
- a firmware implementation is a pure function `SbiCall → SbiRet`;
- a Rust slice `&[u8]` is a list of bytes together with its base address
  (a machine-word value), since Lean values carry no addresses;
- a Rust panic (the out-of-bounds index `bytes[0]` on an empty slice) is
  `none` in an `Option`-typed result.
-/

namespace Sbi

/-- Modelled from the spec: the marshalled firmware call. The call carries a
fixed extension identifier, a function selector, and up to three machine-word
argument slots (`crate::ecall1`/`crate::ecall3` are not under the sources). -/
structure SbiCall where
  extensionId : Nat
  functionId : Nat
  args : List Nat
deriving DecidableEq, Repr

/-- Modelled from the spec: the two-word firmware response, a
(status-code, value) pair, where status 0 means success. -/
structure SbiRet where
  error : Int
  value : Nat
deriving DecidableEq, Repr

/-- Modelled from the spec: the closed error enumeration returned to callers:
`Failed` for I/O-level failures, `InvalidParam` for malformed address/length
arguments, and an unsupported/generic category for any other nonzero status
(`crate::SbiError` is not under the sources). -/
inductive SbiError where
  | Failed
  | NotSupported
  | InvalidParam
deriving DecidableEq, Repr

/-- Modelled from the spec: decoding of the firmware (status, value) pair
performed inside `crate::ecall1`/`crate::ecall3`. Status 0 is success and
carries the value; the conventional SBI codes -1 (I/O failure) and -3
(invalid parameter) map to `Failed` and `InvalidParam`; every other nonzero
status falls into the unsupported/generic category. -/
def decode (ret : SbiRet) : Except SbiError Nat :=
  if ret.error = 0 then Except.ok ret.value
  else if ret.error = -1 then Except.error SbiError.Failed
  else if ret.error = -3 then Except.error SbiError.InvalidParam
  else Except.error SbiError.NotSupported

/-- Modelled from the spec: `crate::ecall1` issues one firmware call with a
single argument slot, the given extension identifier and function selector,
and decodes the response. -/
def ecall1 (fw : SbiCall → SbiRet) (arg0 eid fid : Nat) : Except SbiError Nat :=
  decode (fw (SbiCall.mk eid fid [arg0]))

/-- Modelled from the spec: `crate::ecall3` issues one firmware call with three
argument slots, the given extension identifier and function selector, and
decodes the response. -/
def ecall3 (fw : SbiCall → SbiRet) (arg0 arg1 arg2 eid fid : Nat) :
    Except SbiError Nat :=
  decode (fw (SbiCall.mk eid fid [arg0, arg1, arg2]))

/-- Debug Console Extension (DCE) ID, from `debug_console.rs`. -/
def EXTENSION_ID : Nat := 0x4442434e

/-- Translation of `debug_console::write_byte`: pass the byte, zero-extended
to a machine word, as the sole argument to function 2 of the extension, and
discard the success value. -/
def write_byte (fw : SbiCall → SbiRet) (byte : Fin 256) : Except SbiError Unit :=
  (ecall1 fw byte.val EXTENSION_ID 2).map (fun _ => ())

/-- Address of element `i` of a slice whose base address is `addr`: the Rust
expression `&bytes[i]` is bounds-checked and panics (`none`) when `i` is out
of range. -/
def elemAddr (bytes : List (Fin 256)) (addr i : Nat) : Option Nat :=
  if i < bytes.length then some (addr + i) else none

/-- Translation of `debug_console::write`: pass the slice length, the address
of `bytes[0]` and the constant 0 as the three arguments to function 0 of the
extension. The source computes `&bytes[0]`, so an empty slice panics (`none`)
before any firmware call is made. -/
def write (fw : SbiCall → SbiRet) (bytes : List (Fin 256)) (addr : Nat) :
    Option (Except SbiError Nat) :=
  match elemAddr bytes addr 0 with
  | none => none
  | some p => some (ecall3 fw bytes.length p 0 EXTENSION_ID 0)

/-- Translation of `debug_console::read`: pass the slice length, the address
of `bytes[0]` and the constant 0 as the three arguments to function 1 of the
extension. The source computes `&bytes[0]`, so an empty slice panics (`none`)
before any firmware call is made. -/
def read (fw : SbiCall → SbiRet) (bytes : List (Fin 256)) (addr : Nat) :
    Option (Except SbiError Nat) :=
  match elemAddr bytes addr 0 with
  | none => none
  | some p => some (ecall3 fw bytes.length p 0 EXTENSION_ID 1)

/-- The nonempty case of `elemAddr` at index 0. -/
theorem elemAddr_zero_of_ne_nil (bytes : List (Fin 256)) (addr : Nat)
    (h : bytes ≠ []) : elemAddr bytes addr 0 = some addr := by
  unfold elemAddr
  have hlen : 0 < bytes.length := List.length_pos.mpr h
  simp [hlen]

/-- Status 0 decodes to success carrying the value. -/
theorem decode_ok (ret : SbiRet) (h : ret.error = 0) :
    decode ret = Except.ok ret.value := by
  simp [decode, h]

/-- Every nonzero status decodes to some error, never to success. -/
theorem decode_error (ret : SbiRet) (h : ret.error ≠ 0) :
    ∃ e, decode ret = Except.error e := by
  by_cases h1 : ret.error = -1
  · exact ⟨SbiError.Failed, by simp [decode, h, h1]⟩
  by_cases h3 : ret.error = -3
  · exact ⟨SbiError.InvalidParam, by simp [decode, h, h1, h3]⟩
  exact ⟨SbiError.NotSupported, by simp [decode, h, h1, h3]⟩

/-- C1: the claim fails on the code. A zero-length buffer passed to `write` or
`read` does not return a count of 0: the source indexes `bytes[0]`, which
panics (modelled as `none`) on an empty slice before any firmware call is
made, even under a firmware that would report success. -/
theorem c1_empty_buffer_panics :
    write (fun _ => SbiRet.mk 0 0) [] 0 = none ∧
    read (fun _ => SbiRet.mk 0 0) [] 0 = none ∧
    (none : Option (Except SbiError Nat)) ≠ some (Except.ok 0) := by
  refine ⟨rfl, rfl, ?_⟩
  simp

/-- C2: across all three operations, a firmware status of 0 is decoded to a
success result, and every nonzero status is decoded to an error variant,
never to success. -/
theorem c2_status_zero_iff_success (fw : SbiCall → SbiRet) (byte : Fin 256)
    (bytes : List (Fin 256)) (addr : Nat) (h : bytes ≠ []) :
    ((fw (SbiCall.mk EXTENSION_ID 2 [byte.val])).error = 0 →
      write_byte fw byte = Except.ok ()) ∧
    ((fw (SbiCall.mk EXTENSION_ID 2 [byte.val])).error ≠ 0 →
      ∃ e, write_byte fw byte = Except.error e) ∧
    ((fw (SbiCall.mk EXTENSION_ID 0 [bytes.length, addr, 0])).error = 0 →
      write fw bytes addr =
        some (Except.ok
          (fw (SbiCall.mk EXTENSION_ID 0 [bytes.length, addr, 0])).value)) ∧
    ((fw (SbiCall.mk EXTENSION_ID 0 [bytes.length, addr, 0])).error ≠ 0 →
      ∃ e, write fw bytes addr = some (Except.error e)) ∧
    ((fw (SbiCall.mk EXTENSION_ID 1 [bytes.length, addr, 0])).error = 0 →
      read fw bytes addr =
        some (Except.ok
          (fw (SbiCall.mk EXTENSION_ID 1 [bytes.length, addr, 0])).value)) ∧
    ((fw (SbiCall.mk EXTENSION_ID 1 [bytes.length, addr, 0])).error ≠ 0 →
      ∃ e, read fw bytes addr = some (Except.error e)) := by
  have ha := elemAddr_zero_of_ne_nil bytes addr h
  refine ⟨?_, ?_, ?_, ?_, ?_, ?_⟩
  · intro h0
    simp [write_byte, ecall1, decode_ok _ h0, Except.map]
  · intro h0
    obtain ⟨e, he⟩ := decode_error _ h0
    exact ⟨e, by simp [write_byte, ecall1, he, Except.map]⟩
  · intro h0
    simp [write, ecall3, ha, decode_ok _ h0]
  · intro h0
    obtain ⟨e, he⟩ := decode_error _ h0
    exact ⟨e, by simp [write, ecall3, ha, he]⟩
  · intro h0
    simp [read, ecall3, ha, decode_ok _ h0]
  · intro h0
    obtain ⟨e, he⟩ := decode_error _ h0
    exact ⟨e, by simp [read, ecall3, ha, he]⟩

/-- Witness for C2 at a concrete input: a firmware that always reports
status 0 makes `write_byte` succeed. -/
theorem c2_witness :
    write_byte (fun _ => SbiRet.mk 0 0) 0 = Except.ok () := by
  have hmain := c2_status_zero_iff_success (fun _ => SbiRet.mk 0 0) 0 [0] 0
    (by simp)
  exact hmain.1 rfl

/-- C3: every call marshals the fixed extension identifier, with function
selector 2 for `write_byte`, 0 for `write`, and 1 for `read`. -/
theorem c3_marshals_extension_and_selectors (fw : SbiCall → SbiRet)
    (byte : Fin 256) (bytes : List (Fin 256)) (addr : Nat) (h : bytes ≠ []) :
    write_byte fw byte =
      (decode (fw (SbiCall.mk EXTENSION_ID 2 [byte.val]))).map (fun _ => ()) ∧
    write fw bytes addr =
      some (decode (fw (SbiCall.mk EXTENSION_ID 0 [bytes.length, addr, 0]))) ∧
    read fw bytes addr =
      some (decode (fw (SbiCall.mk EXTENSION_ID 1 [bytes.length, addr, 0]))) := by
  have ha := elemAddr_zero_of_ne_nil bytes addr h
  refine ⟨rfl, ?_, ?_⟩ <;> simp [write, read, ecall3, ha]

/-- Witness for C3 at a concrete input. -/
theorem c3_witness :
    write (fun _ => SbiRet.mk 0 7) [1, 2] 4096 =
      some (decode ((fun _ => SbiRet.mk 0 7)
        (SbiCall.mk EXTENSION_ID 0 [2, 4096, 0]))) := by
  exact (c3_marshals_extension_and_selectors (fun _ => SbiRet.mk 0 7) 0 [1, 2]
    4096 (by simp)).2.1

/-- A successful decode forces a zero status and the firmware value. -/
theorem decode_eq_ok (ret : SbiRet) (n : Nat) (h : decode ret = Except.ok n) :
    ret.error = 0 ∧ ret.value = n := by
  by_cases h0 : ret.error = 0
  · rw [decode_ok _ h0] at h
    exact ⟨h0, by simpa using h⟩
  · obtain ⟨e, he⟩ := decode_error _ h0
    rw [he] at h
    exact absurd h (by simp)

/-- C4 counterexample: a firmware status of -3 makes `write_byte` return the
`InvalidParam` error, an error variant other than `Failed`, refuting the
claim that only success or `Failed` can occur. -/
theorem c4_counterexample :
    write_byte (fun _ => SbiRet.mk (-3) 0) 65 =
      Except.error SbiError.InvalidParam ∧
    (Except.error SbiError.InvalidParam : Except SbiError Unit) ≠
      Except.ok () ∧
    (Except.error SbiError.InvalidParam : Except SbiError Unit) ≠
      Except.error SbiError.Failed := by
  refine ⟨rfl, by simp, by simp⟩

/-- C4 amended: for every byte input, `write_byte` returns either success
(the unit value, carrying no byte count) or an error; a firmware status of 0
gives success and the I/O-failure status -1 gives the `Failed` error, while
other nonzero statuses surface as their corresponding error variants. -/
theorem c4_amended_unit_or_error (fw : SbiCall → SbiRet) (byte : Fin 256) :
    (write_byte fw byte = Except.ok () ∨
      ∃ e, write_byte fw byte = Except.error e) ∧
    ((fw (SbiCall.mk EXTENSION_ID 2 [byte.val])).error = 0 →
      write_byte fw byte = Except.ok ()) ∧
    ((fw (SbiCall.mk EXTENSION_ID 2 [byte.val])).error = -1 →
      write_byte fw byte = Except.error SbiError.Failed) := by
  refine ⟨?_, ?_, ?_⟩
  · by_cases h0 : (fw (SbiCall.mk EXTENSION_ID 2 [byte.val])).error = 0
    · exact Or.inl (by simp [write_byte, ecall1, decode_ok _ h0, Except.map])
    · obtain ⟨e, he⟩ := decode_error _ h0
      exact Or.inr ⟨e, by simp [write_byte, ecall1, he, Except.map]⟩
  · intro h0
    simp [write_byte, ecall1, decode_ok _ h0, Except.map]
  · intro h1
    simp [write_byte, ecall1, decode, h1, Except.map]

/-- Witness for C4 at a concrete input: a firmware reporting the I/O-failure
status makes `write_byte` return `Failed`. -/
theorem c4_witness :
    write_byte (fun _ => SbiRet.mk (-1) 0) 65 =
      Except.error SbiError.Failed := by
  exact (c4_amended_unit_or_error (fun _ => SbiRet.mk (-1) 0) 65).2.2 rfl

/-- C5: for every non-empty buffer, `write` marshals exactly three argument
values to function 0: the buffer's length, then the base address split into
its low and high machine-word halves (for a machine-word address the low
half is the address itself and the high half is 0). -/
theorem c5_write_marshals_three_args (fw : SbiCall → SbiRet)
    (bytes : List (Fin 256)) (addr : Nat) (h : bytes ≠ [])
    (haddr : addr < 2 ^ 64) :
    ∃ args : List Nat,
      args = [bytes.length, addr % 2 ^ 64, addr / 2 ^ 64] ∧
      args.length = 3 ∧
      write fw bytes addr =
        some (decode (fw (SbiCall.mk EXTENSION_ID 0 args))) := by
  have ha := elemAddr_zero_of_ne_nil bytes addr h
  refine ⟨[bytes.length, addr, 0], ?_, rfl, ?_⟩
  · rw [Nat.mod_eq_of_lt haddr, Nat.div_eq_of_lt haddr]
  · simp [write, ecall3, ha]

/-- Witness for C5 at a concrete input. -/
theorem c5_witness :
    ∃ args : List Nat,
      args = [1, 4096 % 2 ^ 64, 4096 / 2 ^ 64] ∧
      args.length = 3 ∧
      write (fun _ => SbiRet.mk 0 1) [65] 4096 =
        some (decode ((fun _ => SbiRet.mk 0 1)
          (SbiCall.mk EXTENSION_ID 0 args))) := by
  exact c5_write_marshals_three_args (fun _ => SbiRet.mk 0 1) [65] 4096
    (by simp) (by norm_num)

/-- C6 counterexample: a firmware reporting success with value 2 makes
`write` of a one-byte buffer return the count 2, which exceeds the buffer's
length; the shim forwards the firmware count without clamping it. -/
theorem c6_counterexample :
    write (fun _ => SbiRet.mk 0 2) [65] 0 = some (Except.ok 2) ∧
    ¬ (2 ≤ ([65] : List (Fin 256)).length) := by
  exact ⟨rfl, by simp⟩

/-- C6 amended: under a firmware whose successful responses carry a value no
larger than the length argument of the call, a successful `write` returns a
count at most the buffer's length and a successful `read` returns a count at
most the buffer's capacity. -/
theorem c6_amended_count_le_length (fw : SbiCall → SbiRet)
    (bytes : List (Fin 256)) (addr n : Nat) (h : bytes ≠ [])
    (hfw : ∀ c : SbiCall, (fw c).error = 0 → (fw c).value ≤ c.args.headD 0) :
    (write fw bytes addr = some (Except.ok n) → n ≤ bytes.length) ∧
    (read fw bytes addr = some (Except.ok n) → n ≤ bytes.length) := by
  have ha := elemAddr_zero_of_ne_nil bytes addr h
  constructor
  · intro hw
    simp only [write, ha, ecall3, Option.some.injEq] at hw
    obtain ⟨h0, hv⟩ := decode_eq_ok _ _ hw
    have hle := hfw (SbiCall.mk EXTENSION_ID 0 [bytes.length, addr, 0]) h0
    simpa [hv] using hle
  · intro hr
    simp only [read, ha, ecall3, Option.some.injEq] at hr
    obtain ⟨h0, hv⟩ := decode_eq_ok _ _ hr
    have hle := hfw (SbiCall.mk EXTENSION_ID 1 [bytes.length, addr, 0]) h0
    simpa [hv] using hle

/-- Witness for C6 at a concrete input. -/
theorem c6_witness : (0 : Nat) ≤ ([65] : List (Fin 256)).length := by
  exact (c6_amended_count_le_length (fun _ => SbiRet.mk 0 0) [65] 0 0
    (by simp) (fun c h0 => Nat.zero_le _)).1 rfl

/-- C7: whenever `read` issues its firmware call, the marshalled length
argument is exactly the buffer's length — so never more than its capacity —
and the result is the raw decoded firmware response, with no bounds checking
beyond forwarding that length. -/
theorem c7_read_forwards_length (fw : SbiCall → SbiRet)
    (bytes : List (Fin 256)) (addr : Nat) (h : bytes ≠ []) :
    ∃ args : List Nat,
      read fw bytes addr =
        some (decode (fw (SbiCall.mk EXTENSION_ID 1 args))) ∧
      args.headD 0 = bytes.length ∧
      args.headD 0 ≤ bytes.length := by
  have ha := elemAddr_zero_of_ne_nil bytes addr h
  exact ⟨[bytes.length, addr, 0], by simp [read, ecall3, ha], rfl, le_refl _⟩

/-- Witness for C7 at a concrete input. -/
theorem c7_witness :
    ∃ args : List Nat,
      read (fun _ => SbiRet.mk 0 0) [9, 9, 9] 8 =
        some (decode ((fun _ => SbiRet.mk 0 0)
          (SbiCall.mk EXTENSION_ID 1 args))) ∧
      args.headD 0 = ([9, 9, 9] : List (Fin 256)).length ∧
      args.headD 0 ≤ ([9, 9, 9] : List (Fin 256)).length := by
  exact c7_read_forwards_length (fun _ => SbiRet.mk 0 0) [9, 9, 9] 8 (by simp)

/-- C9: for every non-empty buffer, both `write` and `read` marshal the
constant 0 as the high (third) address argument regardless of the buffer's
address, while the low (second) argument carries the full machine-word
address. -/
theorem c9_high_half_always_zero (fw : SbiCall → SbiRet)
    (bytes : List (Fin 256)) (addr : Nat) (h : bytes ≠ []) :
    ∃ args : List Nat,
      write fw bytes addr =
        some (decode (fw (SbiCall.mk EXTENSION_ID 0 args))) ∧
      read fw bytes addr =
        some (decode (fw (SbiCall.mk EXTENSION_ID 1 args))) ∧
      args.getD 2 1 = 0 ∧
      args.getD 1 0 = addr := by
  have ha := elemAddr_zero_of_ne_nil bytes addr h
  exact ⟨[bytes.length, addr, 0], by simp [write, ecall3, ha],
    by simp [read, ecall3, ha], rfl, rfl⟩

/-- Witness for C9 at a concrete input. -/
theorem c9_witness :
    ∃ args : List Nat,
      write (fun _ => SbiRet.mk 0 0) [3, 4] 123456789 =
        some (decode ((fun _ => SbiRet.mk 0 0)
          (SbiCall.mk EXTENSION_ID 0 args))) ∧
      read (fun _ => SbiRet.mk 0 0) [3, 4] 123456789 =
        some (decode ((fun _ => SbiRet.mk 0 0)
          (SbiCall.mk EXTENSION_ID 1 args))) ∧
      args.getD 2 1 = 0 ∧
      args.getD 1 0 = 123456789 := by
  exact c9_high_half_always_zero (fun _ => SbiRet.mk 0 0) [3, 4] 123456789
    (by simp)

/-- C10: `write_byte` passes the byte zero-extended to a full machine word as
its sole argument, so the marshalled argument equals the byte's numeric value
and is always below 256. -/
theorem c10_write_byte_zero_extends (fw : SbiCall → SbiRet) (byte : Fin 256) :
    write_byte fw byte =
      (decode (fw (SbiCall.mk EXTENSION_ID 2 [byte.val]))).map (fun _ => ()) ∧
    [byte.val].length = 1 ∧
    byte.val < 256 := by
  exact ⟨rfl, rfl, byte.isLt⟩

end Sbi
